import Mathlib

/-!
Shallow embedding of the excel-tui formula engine, translated from
`src/formulas.rs`, `src/references.rs`, `src/formula_functions.rs` and
`src/spreadsheet.rs`.

Modelling conventions:

* Rust `String`/`&str` values are modelled as `List Char` (the engine only
  manipulates ASCII text, so chars and bytes coincide on every relevant input).
* `f32` values are modelled as exact rationals (`ℚ`).  All claim-relevant
  numeric payloads (small integers and short decimals) are exactly
  representable in `f32`, so no rounding behaviour is observable in the
  statements below.  `f32` special values (`inf`, `NaN`) and shortest-roundtrip
  formatting are outside the fragment exercised by any theorem.
* Fallible Rust paths are modelled with `Except Failure`:
  `.rustErr` is an explicit `Err(())` return, `.rustPanic` is a panic
  (an `unwrap` of `None`/`Err`, an out-of-bounds index, or a debug-profile
  arithmetic overflow), `.diverge` is an infinite loop, and `.fuelOut` is
  exhaustion of the structural recursion fuel used to model the engine's
  unbounded recursion through referenced cells (the source has no cycle
  detection).  A result other than `.fuelOut` is the result of the program.
* `BTreeSet<Reference>` is modelled as a sorted, duplicate-free list under the
  derived lexicographic order on `(row, col)` with `None < Some`.
* The `RAND` function's generator is modelled as an oracle value carried by the
  spreadsheet environment.
-/

attribute [local semireducible] Rat.add Rat.mul Rat.inv Rat.sub Rat.ofScientific

/-- Outcomes of running a fallible piece of the engine. -/
inductive Failure where
  | rustErr
  | rustPanic
  | diverge
  | fuelOut
deriving DecidableEq, Repr

instance {ε α : Type} [DecidableEq ε] [DecidableEq α] : DecidableEq (Except ε α) := by
  intro a b
  cases a <;> cases b
  case error.error e f =>
    exact if h : e = f then .isTrue (by rw [h]) else .isFalse (by intro hh; cases hh; exact h rfl)
  case error.ok e x => exact .isFalse (by intro hh; cases hh)
  case ok.error x e => exact .isFalse (by intro hh; cases hh)
  case ok.ok x y =>
    exact if h : x = y then .isTrue (by rw [h]) else .isFalse (by intro hh; cases hh; exact h rfl)

/-! ## Character and number helpers -/

/-- Model of `char::default()` (`'\0'`), the value `chars().nth(i).unwrap_or_default()`
takes past the end of the string. -/
def nulChar : Char := Char.ofNat 0

/-- Model of `formula.chars().nth(i).unwrap_or_default()`. -/
def charNth (s : List Char) (i : Nat) : Char := (s.getD i nulChar)

/-- Model of `str::to_uppercase` on the ASCII fragment. -/
def toUpper (s : List Char) : List Char :=
  s.map (fun c => if 'a' ≤ c ∧ c ≤ 'z' then Char.ofNat (c.toNat - 32) else c)

/-- Numeric value of a list of ASCII digits. -/
def digitsVal (s : List Char) : Nat :=
  s.foldl (fun a c => a * 10 + (c.toNat - 48)) 0

/-- Model of `str::parse::<usize>` on a non-empty all-digit string: `Ok` exactly
when the value fits in 64 bits (overflow is a parse error, not a panic). -/
def parseUsize (s : List Char) : Option Nat :=
  if s ≠ [] ∧ s.all Char.isDigit ∧ digitsVal s < 18446744073709551616 then
    some (digitsVal s)
  else none

/-- Mantissa/fraction split used by `parseF32`: digits before and after an
optional decimal point. -/
def splitFrac (s : List Char) : List Char × List Char :=
  (s.takeWhile (fun c => c ≠ '.'), (s.dropWhile (fun c => c ≠ '.')).drop 1)

/-- Fractional value of a digit list read after the decimal point. -/
def fracVal (s : List Char) : ℚ :=
  (digitsVal s : ℚ) / ((10 : ℚ) ^ s.length)

/-- Model of `str::parse::<f32>` over the decimal fragment of Rust's float
grammar: optional sign, then digits with an optional point (at least one digit
overall), optionally a decimal exponent.  The `inf`/`NaN` words and `f32`
rounding/overflow-to-infinity are not representable in `ℚ` and are outside
every input any theorem touches. -/
def parseF32 (s : List Char) : Option ℚ :=
  let (sgn, body) :=
    match s with
    | '-' :: rest => ((-1 : ℚ), rest)
    | '+' :: rest => ((1 : ℚ), rest)
    | _ => ((1 : ℚ), s)
  let mantissa := body.takeWhile (fun c => c ≠ 'e' ∧ c ≠ 'E')
  let expPart := (body.dropWhile (fun c => c ≠ 'e' ∧ c ≠ 'E')).drop 1
  let (ip, fp) := splitFrac mantissa
  let okMantissa :=
    (ip ++ fp) ≠ [] ∧ ip.all Char.isDigit ∧ fp.all Char.isDigit ∧
      mantissa.count '.' ≤ 1 ∧ mantissa ≠ ['.']
  let (esgn, edigits) :=
    match expPart with
    | '-' :: rest => ((-1 : Int), rest)
    | '+' :: rest => ((1 : Int), rest)
    | _ => ((1 : Int), expPart)
  let hasExp := (body.dropWhile (fun c => c ≠ 'e' ∧ c ≠ 'E')) ≠ []
  let okExp := ¬hasExp ∨ (edigits ≠ [] ∧ edigits.all Char.isDigit)
  if okMantissa ∧ okExp then
    let base : ℚ := sgn * ((digitsVal ip : ℚ) + fracVal fp)
    some (if hasExp then base * (10 : ℚ) ^ (esgn * (digitsVal edigits : Int)) else base)
  else none

/-- Decimal digits of a natural number, via the standard library renderer. -/
def natToChars (n : Nat) : List Char := Nat.toDigits 10 n

/-- Decimal rendering of an integer. -/
def intToChars (i : Int) : List Char :=
  if i < 0 then '-' :: natToChars i.natAbs else natToChars i.natAbs

/-- Fraction digits of `r / den` (long division), `fuel` bounds the digit count. -/
def fracDigits : Nat → Nat → Nat → List Char
  | 0, _, _ => []
  | _ + 1, _, 0 => []
  | fuel + 1, den, r =>
    if den = 0 then []
    else Char.ofNat (48 + r * 10 / den) :: fracDigits fuel den (r * 10 % den)

/-- Model of `f32::to_string`.  Exact `f32` values always have terminating
decimal expansions, so on every value the engine actually renders in a theorem
below (integers and short decimals) this agrees with Rust's shortest-roundtrip
formatting. -/
def f32ToString (q : ℚ) : List Char :=
  if q.den = 1 then intToChars q.num
  else
    (if q.num < 0 then ['-'] else []) ++
      natToChars (q.num.natAbs / q.den) ++
      '.' :: fracDigits 64 q.den (q.num.natAbs % q.den)

/-! ## References (`src/references.rs`) -/

/-- A 0-indexed reference to a cell (`struct Reference`), with the derived
lexicographic order over `(row, col)` where `None < Some`. -/
structure Reference where
  row : Option Nat
  col : Option Nat
deriving DecidableEq, Repr

/-- The derived `Ord` on `Option<usize>`: `None` sorts before `Some`. -/
def optNatLe (a b : Option Nat) : Bool :=
  match a, b with
  | none, _ => true
  | some _, none => false
  | some x, some y => x ≤ y

/-- The derived lexicographic `Ord` on `Reference` (field order `row`, `col`). -/
def refLe (a b : Reference) : Bool :=
  match a.row, b.row with
  | none, none => optNatLe a.col b.col
  | none, some _ => true
  | some _, none => false
  | some x, some y => if x = y then optNatLe a.col b.col else x ≤ y

/-- Ordered insertion without duplicates: one `BTreeSet` insertion. -/
def refInsert (r : Reference) : List Reference → List Reference
  | [] => [r]
  | x :: xs =>
    if r = x then x :: xs
    else if refLe r x then r :: x :: xs
    else x :: refInsert r xs

/-- Model of `BTreeSet::from_iter`: a sorted, duplicate-free list. -/
def refSetOfList (l : List Reference) : List Reference :=
  l.foldl (fun acc r => refInsert r acc) []

/-- Model of `std::cmp::min` on `Option<usize>` (`None < Some`). -/
def optMin (a b : Option Nat) : Option Nat := if optNatLe a b then a else b

/-- Model of `std::cmp::max` on `Option<usize>` (`None < Some`). -/
def optMax (a b : Option Nat) : Option Nat := if optNatLe a b then b else a

/-- `Reference::range`: the inclusive rectangle, row-major.  The four
`unwrap`s panic whenever a coordinate of either endpoint is missing (the
`min`/`max` over `Option` is `None` as soon as one side is `None`). -/
def Reference.range (a other : Reference) : Except Failure (List Reference) :=
  match optMin a.row other.row, optMin a.col other.col,
        optMax a.row other.row, optMax a.col other.col with
  | some minRow, some minCol, some maxRow, some maxCol =>
    .ok ((List.range' minRow (maxRow + 1 - minRow)).flatMap
      (fun r => (List.range' minCol (maxCol + 1 - minCol)).map
        (fun c => Reference.mk (some r) (some c))))
  | _, _, _, _ => .error .rustPanic

/-- `Reference::alpha_to_index` with `u32` debug-profile overflow panics made
explicit; `.ok none` is the `None` return on a non-alphabetic character. -/
def alphaAux : List Char → Nat → Nat → Except Failure (Option Nat)
  | [], _, acc => .ok (some acc)
  | c :: rest, revIdx, acc =>
    if ¬c.isAlpha then .ok none
    else
      let p := 26 ^ revIdx
      if 4294967296 ≤ p then .error .rustPanic
      else
        let t := (c.toNat - 64) * p
        if 4294967296 ≤ t then .error .rustPanic
        else if 4294967296 ≤ acc + t then .error .rustPanic
        else alphaAux rest (revIdx + 1) (acc + t)

/-- Converts an Excel alphabetized column id into a 1-indexed number
(`Reference::alpha_to_index`). -/
def alpha_to_index (alpha : List Char) : Except Failure (Option Nat) :=
  alphaAux alpha.reverse 0 0

/-- The digit loop of `Reference::index_to_alpha` (`letters` accumulates the
low-order letter first); structural fuel, `index` itself always suffices. -/
def indexAlphaAux : Nat → Nat → List Nat
  | 0, _ => []
  | _ + 1, 0 => []
  | fuel + 1, i => (64 + i % 26) :: indexAlphaAux fuel (i / 26)

/-- Converts a 1-indexed number into the source's alphabetized column id
(`Reference::index_to_alpha`); always `Some`. -/
def index_to_alpha (index : Nat) : Option (List Char) :=
  some (((indexAlphaAux index index).reverse).map Char.ofNat)

/-- `Reference::to_string`.  Note: a col-only reference panics
(`self.row.unwrap()` in the `col.is_some()` branch), and the full form is
rendered as `(LETTERS,DIGITS)`. -/
def Reference.to_string (r : Reference) : Except Failure (List Char) :=
  match r.row, r.col with
  | some row, some col =>
    let c32 := col % 4294967296
    if 4294967296 ≤ c32 + 1 then .error .rustPanic
    else
      match index_to_alpha (c32 + 1) with
      | some a => .ok ('(' :: a ++ ',' :: natToChars (row + 1) ++ [')'])
      | none => .error .rustPanic
  | some row, none => .ok (natToChars row)
  | none, some _ => .error .rustPanic
  | none, none => .ok []

/-- A 0-based `(row, col)` cell address (`struct SpreadsheetCell`). -/
structure SpreadsheetCell where
  row : Nat
  col : Nat
deriving DecidableEq, Repr

/-- `Reference::get_cell`. -/
def Reference.get_cell (r : Reference) : SpreadsheetCell :=
  { row := r.row.getD 0, col := r.col.getD 0 }

/-- `parse_reference`: leading letters, then digits, then end of input.
`.ok none` is the `None` return; panics are the `u32` overflow inside
`alpha_to_index` and the debug-profile `0usize - 1` underflow on a row `0`. -/
def parse_reference (text : List Char) : Except Failure (Option Reference) :=
  let col := text.takeWhile Char.isAlpha
  let rest := text.dropWhile Char.isAlpha
  let row := rest.takeWhile Char.isDigit
  let rest2 := rest.dropWhile Char.isDigit
  if (row.length = 0 ∧ col.length = 0) ∨ rest2.length ≠ 0 then .ok none
  else
    match (if col.length > 0 then alpha_to_index col else .ok none : Except Failure (Option Nat)) with
    | .error e => .error e
    | .ok colIdx =>
      let colField := colIdx.map (fun i => i - 1)
      match (if row.length > 0 then parseUsize row else none : Option Nat) with
      | some v =>
        if v = 0 then .error .rustPanic
        else .ok (some { row := some (v - 1), col := colField })
      | none => .ok (some { row := none, col := colField })

/-! ## Spreadsheet (`src/spreadsheet.rs`) -/

/-- The grid, reduced to the fields the formula engine reads: the cell text
matrix, the length of the `col_widths` vector (`Spreadsheet::new` and
`from_csv` both make it `SPREADSHEET_MAX_COLS = 2^14`), and the oracle
feeding `rand::random` in `RAND`. -/
structure Spreadsheet where
  data : List (List (List Char))
  colWidthsLen : Nat
  rand : ℚ

/-- `Spreadsheet::get_cell` (empty string when `in_spreadsheet` fails). -/
def get_cell (s : Spreadsheet) (cell : SpreadsheetCell) : List Char :=
  if cell.row < s.data.length ∧
      cell.col < (s.data.getD cell.row []).length ∧
      cell.col < s.colWidthsLen then
    (s.data.getD cell.row []).getD cell.col []
  else []

/-! ## Tokens (`src/formulas.rs`) -/

/-- The lexical categories of `enum TokenType`. -/
inductive TokenType where
  | Function
  | FuncClose
  | FuncArgSep
  | Reference
  | Number
  | String
  | Boolean
  | Operator
  | LeftParen
  | RightParen
deriving DecidableEq, Repr

/-- `struct Token`. -/
structure Token where
  token_type : TokenType
  content : List Char
  function_n_args : Option Nat
  reference_set : Option (List Reference)
deriving DecidableEq, Repr

/-- The derived `Default` for `Token` (`TokenType::String`, empty content). -/
instance : Inhabited Token :=
  ⟨{ token_type := .String, content := [], function_n_args := none, reference_set := none }⟩

/-- `Token::new`. -/
def Token.new (token_type : TokenType) (content : List Char) : Token :=
  { token_type := token_type, content := content,
    function_n_args := none, reference_set := none }

/-- `Token::function`. -/
def Token.function (content : List Char) (n_args : Nat) : Token :=
  { token_type := .Function, content := content,
    function_n_args := some n_args, reference_set := none }

/-- `Token::reference`. -/
def Token.reference (refs : List Reference) : Token :=
  { token_type := .Reference, content := [],
    function_n_args := none, reference_set := some refs }

/-- The `OPERATORS` table, duplicate `"^"` included. -/
def OPERATORS : List (List Char) :=
  [['-'], ['%'], ['^'], ['^'], ['*'], ['/'], ['+'], ['&'], ['='],
   ['>', '='], ['<', '='], ['<', '>'], ['<'], ['>'], ['@'], ['#'],
   [':'], [','], [' ']]

/-- The names registered in `get_funcs` (`src/formula_functions.rs`). -/
def registeredFuncs : List (List Char) :=
  [("SUM").toList, ("SQRT").toList, ("IF").toList, ("PI").toList,
   ("RAND").toList, ("AVERAGE").toList, ("MEDIAN").toList]

/-- `get_operator_precedence`. -/
def get_operator_precedence (operator : List Char) : Nat :=
  if operator = [':'] then 9
  else if operator = [','] then 8
  else if operator = [' '] then 8
  else if operator = ['-', '1'] then 7
  else if operator = ['%'] then 6
  else if operator = ['^'] then 5
  else if operator = ['*'] then 4
  else if operator = ['/'] then 4
  else if operator = ['+'] then 3
  else if operator = ['-'] then 3
  else if operator = ['&'] then 2
  else if operator = ['='] then 1
  else if operator = ['<'] then 1
  else if operator = ['>'] then 1
  else if operator = ['<', '='] then 1
  else if operator = ['>', '='] then 1
  else if operator = ['<', '>'] then 1
  else 0

/-- `apply_arithmetic_operator` over the rational model of `f32`.  Rational
exponents and division-by-zero produce `f32` specials not representable in
`ℚ`; no theorem evaluates those inputs. -/
def apply_arithmetic_operator (a b : ℚ) (operator : List Char) : ℚ :=
  if operator = ['+'] then a + b
  else if operator = ['-'] then a - b
  else if operator = ['*'] then a * b
  else if operator = ['/'] then a / b
  else if operator = ['^'] then (if b.den = 1 then a ^ b.num else 0)
  else a

/-- `apply_comparison_operator`. -/
def apply_comparison_operator (a b : ℚ) (operator : List Char) : Bool :=
  if operator = ['='] then a = b
  else if operator = ['<'] then a < b
  else if operator = ['>'] then b < a
  else if operator = ['<', '='] then a ≤ b
  else if operator = ['>', '='] then b ≤ a
  else if operator = ['<', '>'] then a ≠ b
  else false

/-- `apply_reference_operator`.  `:` takes `first()` of each set (panics when
a set is empty) and ranges; `,` is union, space is intersection; the result is
rebuilt as a `BTreeSet`. -/
def apply_reference_operator (a b : List Reference) (operator : List Char) :
    Except Failure (List Reference) :=
  if operator = [':'] then
    match a.head?, b.head? with
    | some x, some y =>
      match x.range y with
      | .ok cells => .ok (refSetOfList cells)
      | .error e => .error e
    | _, _ => .error .rustPanic
  else if operator = [','] then .ok (refSetOfList (a ++ b))
  else if operator = [' '] then .ok (refSetOfList (a.filter (fun r => b.contains r)))
  else .ok (refSetOfList a)

/-! ## Lexer (`parse_formula`) -/

/-- `find_close_paren`; the depth check runs after the update, and a start
character that is no parenthesis returns `start` immediately. -/
def findCloseAux : Nat → List Char → Nat → Int → Option Nat
  | 0, _, _, _ => none
  | fuel + 1, formula, idx, depth =>
    if idx < formula.length then
      let c := charNth formula idx
      let depth' := depth + (if c = '(' then 1 else 0) - (if c = ')' then 1 else 0)
      if depth' = 0 then some idx
      else findCloseAux fuel formula (idx + 1) depth'
    else none

/-- `find_close_paren`. -/
def find_close_paren (formula : List Char) (start_idx : Nat) : Option Nat :=
  findCloseAux (formula.length + 1) formula start_idx 0

/-- The raw scanning loop of `parse_formula`.  The loop advances the index by
at least one per iteration, so fuel `formula.length + 1` never runs out. -/
def lexLoop : Nat → List Char → Nat → List Nat → List Token →
    Except Failure (List Token × List Nat)
  | 0, _, _, _, _ => .error .fuelOut
  | fuel + 1, formula, i, fcp, acc =>
    if i < formula.length then
      let c := charNth formula i
      if c.isDigit then
        let ds := (formula.drop i).takeWhile Char.isDigit
        lexLoop fuel formula (i + ds.length) fcp (acc ++ [Token.new .Number ds])
      else if OPERATORS.contains [c] then
        let ext := [c, charNth formula (i + 1)]
        if OPERATORS.contains ext then
          lexLoop fuel formula (i + 2) fcp (acc ++ [Token.new .Operator ext])
        else
          lexLoop fuel formula (i + 1) fcp (acc ++ [Token.new .Operator [c]])
      else if c.isAlpha then
        let w := (formula.drop i).takeWhile Char.isAlphanum
        let u := toUpper w
        if u = ("TRUE").toList ∨ u = ("FALSE").toList then
          lexLoop fuel formula (i + w.length) fcp (acc ++ [Token.new .Boolean u])
        else if registeredFuncs.contains u then
          match (formula.drop (i + w.length)).head? with
          | none => lexLoop fuel formula (i + w.length + 1) fcp acc
          | some o =>
            if o = '(' then
              let fcp' := match find_close_paren formula (i + w.length) with
                | some cp => fcp ++ [cp]
                | none => fcp
              lexLoop fuel formula (i + w.length + 1) fcp' (acc ++ [Token.function u 0])
            else .error .rustErr
        else
          match parse_reference u with
          | .error e => .error e
          | .ok (some r) =>
            lexLoop fuel formula (i + w.length) fcp (acc ++ [Token.reference (refSetOfList [r])])
          | .ok none => lexLoop fuel formula (i + w.length + 1) fcp acc
      else if c = '(' then
        lexLoop fuel formula (i + 1) fcp (acc ++ [Token.new .LeftParen []])
      else if c = ')' then
        let t := if fcp.contains i then Token.new .FuncClose [] else Token.new .RightParen []
        lexLoop fuel formula (i + 1) fcp (acc ++ [t])
      else if c = '"' then
        let sv := (formula.drop (i + 1)).takeWhile (fun ch => ch ≠ '"')
        lexLoop fuel formula (i + 1 + sv.length + 1) fcp (acc ++ [Token.new .String sv])
      else lexLoop fuel formula (i + 1) fcp acc
    else .ok (acc, fcp)

/-- The dual-meaning-operator sweep of `parse_formula` (`-`, `,`, ` `).
A space operator at index 0 indexes `parsed[0 - 1]`: a usize-underflow panic.
An empty token list panics before this loop even starts
(`0..parsed.len() - 1` underflows). -/
def pass2Aux : Nat → List Token → Nat → List Nat →
    Except Failure (List Token × List Nat)
  | 0, _, _, _ => .error .fuelOut
  | fuel + 1, ps, idx, toRemove =>
    if idx < ps.length - 1 then
      let t := ps.getD idx default
      if t.token_type = .Operator ∧ t.content = ['-'] ∧
          (idx = 0 ∨ (ps.getD (idx - 1) default).token_type ≠ .Number) then
        pass2Aux fuel (ps.set idx { t with content := ['-', '1'] }) (idx + 1) toRemove
      else if t.token_type = .Operator ∧ t.content = [','] then
        if idx = 0 then .error .rustErr
        else if ¬((ps.getD (idx - 1) default).token_type = .Reference ∧
            (ps.getD (idx + 1) default).token_type = .Reference) then
          pass2Aux fuel (ps.set idx { t with token_type := .FuncArgSep }) (idx + 1) toRemove
        else pass2Aux fuel ps (idx + 1) toRemove
      else if t.token_type = .Operator ∧ t.content = [' '] then
        if idx = 0 then .error .rustPanic
        else if ¬((ps.getD (idx - 1) default).token_type = .Reference ∧
            (ps.getD (idx + 1) default).token_type = .Reference) then
          pass2Aux fuel ps (idx + 1) (toRemove ++ [idx])
        else pass2Aux fuel ps (idx + 1) toRemove
      else pass2Aux fuel ps (idx + 1) toRemove
    else .ok (ps, toRemove)

/-- The reverse-order removal of the marked indices: keep each element whose
index was not marked. -/
def removePass (ps : List Token) (toRemove : List Nat) : List Token :=
  (ps.enum.filterMap (fun p => if toRemove.contains p.1 then none else some p.2))

/-- The inner argument-counting walk of the arity pass. -/
def computeArgsAux : Nat → List Token → Nat → Nat → Int → Nat → Nat
  | 0, _, _, _, _, args => args
  | fuel + 1, ps, idx, j, depth, args =>
    if j < ps.length then
      let t := ps.getD j default
      let depth' := depth + (if t.token_type = .Function then 1 else 0)
        - (if t.token_type = .FuncClose then 1 else 0)
      if depth' = 0 ∧ j = idx + 1 then 0
      else if depth' = 0 then args
      else
        computeArgsAux fuel ps idx (j + 1) depth'
          (if depth' = 1 ∧ t.token_type = .FuncArgSep then args + 1 else args)
    else args

/-- Argument count assigned to the `Function` token at `idx`. -/
def computeArgs (ps : List Token) (idx : Nat) : Nat :=
  computeArgsAux (ps.length + 1) ps idx idx 0 1

/-- The `function_n_args` assignment pass.  It only reads `token_type`s, which
it never changes, so the sequential in-place updates are exactly this loop. -/
def ariPassAux : Nat → List Token → Nat → List Token
  | 0, ps, _ => ps
  | fuel + 1, ps, idx =>
    if idx < ps.length then
      let t := ps.getD idx default
      let ps' := if t.token_type = .Function then
          ps.set idx { t with function_n_args := some (computeArgs ps idx) }
        else ps
      ariPassAux fuel ps' (idx + 1)
    else ps

/-- `parse_formula`: scan, dual-meaning sweep (with its panic on an empty
token list), removals, arity assignment. -/
def parse_formula (formula : List Char) : Except Failure (List Token) :=
  match lexLoop (formula.length + 1) formula 0 [] [] with
  | .error e => .error e
  | .ok (parsed, _) =>
    if parsed.length = 0 then .error .rustPanic
    else
      match pass2Aux (parsed.length + 1) parsed 0 [] with
      | .error e => .error e
      | .ok (ps, toRemove) =>
        let ps2 := removePass ps toRemove
        .ok (ariPassAux (ps2.length + 1) ps2 0)

/-! ## Reorderer (the shunting-yard pass of `eval_formula`) -/

/-- The `RightParen` pop loop.  The source's guard
`x.token_type != LeftParen || x.token_type != Function` is kept verbatim;
since no type equals both, it holds for every token, and the `break` arm
(which discards the popped token) is unreachable.  Stacks keep their top at
the head. -/
def popRightParen : List Token → List Token → List Token × List Token
  | [], out => ([], out)
  | x :: rest, out =>
    if x.token_type ≠ .LeftParen ∨ x.token_type ≠ .Function then
      popRightParen rest (out ++ [x])
    else (rest, out)

/-- The `FuncClose`/`FuncArgSep` pop loop, with the source's triple
disjunction kept verbatim (again always true). -/
def popFuncBoundary : List Token → List Token → List Token × List Token
  | [], out => ([], out)
  | x :: rest, out =>
    if x.token_type ≠ .LeftParen ∨ x.token_type ≠ .Function ∨
        x.token_type ≠ .FuncArgSep then
      popFuncBoundary rest (out ++ [x])
    else (rest, out)

/-- The `Operator` pop loop: pop while the top of the stack has precedence at
least `cur`.  (Caller has already ruled out `cur = 0`; with `cur ≥ 1` the
empty stack's default token, precedence `0`, stops the source loop exactly
where this recursion stops.) -/
def popOperators (cur : Nat) : List Token → List Token → List Token × List Token
  | [], out => ([], out)
  | x :: rest, out =>
    if cur ≤ get_operator_precedence x.content then
      popOperators cur rest (out ++ [x])
    else (x :: rest, out)

/-- The first loop of `eval_formula`: infix to postfix.  State is
`(input, output queue, operator stack, function stack)`; stacks keep their
top at the head.  An operator of precedence `0` (`@`, `#`) loops forever in
the source (the empty stack's default precedence `0` satisfies `0 ≥ 0` and a
failed pop changes nothing), modelled as `.diverge`;  a `FuncClose` with an
empty function stack is an `unwrap` panic. -/
def shuntAux : List Token → List Token → List Token → List Token →
    Except Failure (List Token)
  | [], out, ops, _ => .ok (out ++ ops)
  | t :: rest, out, ops, fns =>
    match t.token_type with
    | .LeftParen => shuntAux rest out (t :: ops) fns
    | .RightParen =>
      let (ops', out') := popRightParen ops out
      shuntAux rest out' ops' fns
    | .Function => shuntAux rest out ops (t :: fns)
    | .FuncClose =>
      let (ops', out') := popFuncBoundary ops out
      match fns with
      | [] => .error .rustPanic
      | f :: fns' => shuntAux rest (out' ++ [f]) ops' fns'
    | .FuncArgSep =>
      let (ops', out') := popFuncBoundary ops out
      shuntAux rest out' ops' fns
    | .Operator =>
      let cur := get_operator_precedence t.content
      if cur = 0 then .error .diverge
      else
        let (ops', out') := popOperators cur ops out
        shuntAux rest out' (t :: ops') fns
    | .Number => shuntAux rest (out ++ [t]) ops fns
    | .String => shuntAux rest (out ++ [t]) ops fns
    | .Boolean => shuntAux rest (out ++ [t]) ops fns
    | .Reference => shuntAux rest (out ++ [t]) ops fns

/-- The reorder pass over a parsed token stream. -/
def shuntingYard (tokens : List Token) : Except Failure (List Token) :=
  shuntAux tokens [] [] []

/-! ## Evaluator (`src/formulas.rs` `eval_formula` second loop,
`src/formula_functions.rs`) -/

/-- `Token::as_f32`.  The `spreadsheet` argument is received but never used:
the `Reference` kind falls into the `_ => 0.0` arm.  A `Number` whose content
does not parse is an `unwrap` panic. -/
def as_f32 (t : Token) (_spreadsheet : Spreadsheet) : Except Failure ℚ :=
  match t.token_type with
  | .Number =>
    match parseF32 t.content with
    | some v => .ok v
    | none => .error .rustPanic
  | .Boolean => .ok (if t.content = ("TRUE").toList then 1 else 0)
  | _ => .ok 0

/-- Model of `str::split(",")` (an empty string yields one empty piece). -/
def splitComma : List Char → List (List Char)
  | [] => [[]]
  | c :: rest =>
    if c = ',' then [] :: splitComma rest
    else
      match splitComma rest with
      | h :: t => (c :: h) :: t
      | [] => [[c]]

/-- Rational square root, exact cases only (`f32::sqrt` is floating-point; no
theorem evaluates `SQRT`). -/
def sqrtQ (q : ℚ) : ℚ :=
  if 0 ≤ q.num ∧ (Nat.sqrt q.num.natAbs) ^ 2 = q.num.natAbs ∧
      (Nat.sqrt q.den) ^ 2 = q.den then
    (Nat.sqrt q.num.natAbs : ℚ) / (Nat.sqrt q.den : ℚ)
  else 0

/-- The exact value of `std::f32::consts::PI`. -/
def piF32 : ℚ := 13176795 / 4194304

/-!
The engine's mutually recursive, grid-dereferencing core.  Every call into
the block consumes one unit of fuel; a result other than `.error .fuelOut`
is the behaviour of the (unboundedly recursive) source.
-/

mutual

/-- `eval_formula`: parse (`unwrap_or_default` turns an `Err(())` into an
empty token list, while panics propagate), reorder, evaluate, then
`eval_stack.first().unwrap()`. -/
def eval_formula : Nat → List Char → Spreadsheet → Except Failure Token
  | 0, _, _ => .error .fuelOut
  | fuel + 1, formula, s =>
    match (match parse_formula formula with
           | .ok ts => .ok ts
           | .error .rustErr => .ok []
           | .error e => .error e : Except Failure (List Token)) with
    | .error e => .error e
    | .ok parsed =>
      match shuntingYard parsed with
      | .error e => .error e
      | .ok prog =>
        match evalPostfix fuel prog [] s with
        | .error e => .error e
        | .ok stack =>
          match stack.getLast? with
          | some t => .ok t
          | none => .error .rustPanic
termination_by structural fuel _ _ => fuel

/-- `cell_to_token`.  Keeps the source verbatim: the fallback type is
`Number` (initial value of the mutable), and the boolean test compares the
uppercased text against `"FALSE"` and against `"True"` (a comparison that can
never succeed). -/
def cell_to_token : Nat → List Char → Spreadsheet → Except Failure Token
  | 0, _, _ => .error .fuelOut
  | fuel + 1, cell_value, s =>
    if cell_value.head? = some '=' then eval_formula fuel (cell_value.drop 1) s
    else
      let token_type :=
        if cell_value.all (fun c => c.isDigit ∨ c = '.') then TokenType.Number
        else if toUpper cell_value = ("FALSE").toList ∨
            toUpper cell_value = ("True").toList then TokenType.Boolean
        else TokenType.Number
      .ok (Token.new token_type cell_value)
termination_by structural fuel _ _ => fuel

/-- `Spreadsheet::get_cell_value`. -/
def get_cell_value : Nat → SpreadsheetCell → Spreadsheet → Except Failure Token
  | 0, _, _ => .error .fuelOut
  | fuel + 1, cell, s => cell_to_token fuel (get_cell s cell) s
termination_by structural fuel _ _ => fuel

/-- `Token::is_number`. -/
def is_number : Nat → Token → Spreadsheet → Except Failure Bool
  | 0, _, _ => .error .fuelOut
  | fuel + 1, t, s =>
    match t.token_type with
    | .Boolean => .ok true
    | .Number => .ok true
    | .String => .ok (parseF32 t.content).isSome
    | .Reference => isNumberParts fuel (splitComma t.content) s
    | _ => .ok false
termination_by structural fuel _ _ => fuel

/-- The short-circuiting `all` over the comma-split content of a reference
token inside `Token::is_number`. -/
def isNumberParts : Nat → List (List Char) → Spreadsheet → Except Failure Bool
  | 0, _, _ => .error .fuelOut
  | _ + 1, [], _ => .ok true
  | fuel + 1, p :: rest, s =>
    match parse_reference p with
    | .error e => .error e
    | .ok none => .ok false
    | .ok (some ref) =>
      match get_cell_value fuel ref.get_cell s with
      | .error .rustErr => .ok false
      | .error e => .error e
      | .ok cv =>
        match is_number fuel cv s with
        | .error e => .error e
        | .ok b => if b then isNumberParts fuel rest s else .ok false
termination_by structural fuel _ _ => fuel

/-- The argument-gathering loop shared by `Sum`, `Average` and `Median`:
an `is_number` argument contributes `as_f32`, and a `reference_set` is
expanded cell by cell. -/
def gatherNums : Nat → List Token → Spreadsheet → Except Failure (List ℚ)
  | 0, _, _ => .error .fuelOut
  | _ + 1, [], _ => .ok []
  | fuel + 1, arg :: rest, s =>
    match is_number fuel arg s with
    | .error e => .error e
    | .ok isNum =>
      match (if isNum then
              match as_f32 arg s with
              | .ok v => .ok [v]
              | .error e => .error e
             else .ok [] : Except Failure (List ℚ)) with
      | .error e => .error e
      | .ok part1 =>
        match (match arg.reference_set with
               | none => .ok []
               | some rs => gatherRefs fuel rs s : Except Failure (List ℚ)) with
        | .error e => .error e
        | .ok part2 =>
          match gatherNums fuel rest s with
          | .error e => .error e
          | .ok part3 => .ok (part1 ++ part2 ++ part3)
termination_by structural fuel _ _ => fuel

/-- Expansion of one reference set inside `Sum`/`Average`/`Median`: each cell
is dereferenced (`get_cell_value(..).unwrap()` — an `Err` is a panic),
filtered by `is_number` and mapped through `as_f32`. -/
def gatherRefs : Nat → List Reference → Spreadsheet → Except Failure (List ℚ)
  | 0, _, _ => .error .fuelOut
  | _ + 1, [], _ => .ok []
  | fuel + 1, r :: rest, s =>
    match get_cell_value fuel r.get_cell s with
    | .error .rustErr => .error .rustPanic
    | .error e => .error e
    | .ok tok =>
      match is_number fuel tok s with
      | .error e => .error e
      | .ok b =>
        match (if b then
                match as_f32 tok s with
                | .ok v => .ok [v]
                | .error e => .error e
               else .ok [] : Except Failure (List ℚ)) with
        | .error e => .error e
        | .ok part =>
          match gatherRefs fuel rest s with
          | .error e => .error e
          | .ok parts => .ok (part ++ parts)
termination_by structural fuel _ _ => fuel

/-- Dispatch of the function registry (`get_funcs`) plus the bodies of the
registered functions from `src/formula_functions.rs`.  `AVERAGE` of an empty
gather divides zero by zero (`NaN` in `f32`, `0` in `ℚ`; no theorem evaluates
it); `MEDIAN` of an empty gather is an out-of-bounds index panic. -/
def callFunc : Nat → List Char → List Token → Spreadsheet →
    Except Failure (List Token)
  | 0, _, _, _ => .error .fuelOut
  | fuel + 1, name, args, s =>
    if name = ("SUM").toList then
      match gatherNums fuel args s with
      | .error e => .error e
      | .ok nums => .ok [Token.new .Number (f32ToString nums.sum)]
    else if name = ("SQRT").toList then
      if args.length = 1 ∧ (args.getD 0 default).token_type = .Number then
        match parseF32 (args.getD 0 default).content with
        | some v => .ok [Token.new .Number (f32ToString (sqrtQ v))]
        | none => .error .rustPanic
      else .error .rustErr
    else if name = ("IF").toList then
      if args.length < 2 then .error .rustErr
      else
        let condition := args.getD 0 default
        if condition.token_type ≠ .Boolean then .error .rustErr
        else
          match as_f32 condition s with
          | .error e => .error e
          | .ok v =>
            if v = 1 then .ok [args.getD 1 default]
            else .ok [if 2 < args.length then args.getD 2 default
                      else Token.new .Boolean (("FALSE").toList)]
    else if name = ("PI").toList then
      if 0 < args.length then .error .rustErr
      else .ok [Token.new .Number (f32ToString piF32)]
    else if name = ("RAND").toList then
      if 0 < args.length then .error .rustErr
      else .ok [Token.new .Number (f32ToString s.rand)]
    else if name = ("AVERAGE").toList then
      match gatherNums fuel args s with
      | .error e => .error e
      | .ok nums => .ok [Token.new .Number (f32ToString (nums.sum / (nums.length : ℚ)))]
    else if name = ("MEDIAN").toList then
      match gatherNums fuel args s with
      | .error e => .error e
      | .ok nums =>
        let sorted := nums.mergeSort (fun a b => a ≤ b)
        if sorted.length % 2 = 1 then
          .ok [Token.new .Number (f32ToString (sorted.getD (sorted.length / 2) 0))]
        else if sorted.length = 0 then .error .rustPanic
        else
          .ok [Token.new .Number (f32ToString
            ((sorted.getD (sorted.length / 2) 0 +
              sorted.getD (sorted.length / 2 - 1) 0) / 2))]
    else .error .rustErr
termination_by structural fuel _ _ _ => fuel

/-- The `TokenType::Operator` arm of the evaluator loop: pop, dispatch on the
symbol, push the result; returns the updated operand stack (top at the head).
The final catch-all (`_ => {}` in the source) pops one operand and pushes
nothing. -/
def evalOperator (t : Token) (stack : List Token) (s : Spreadsheet) :
    Except Failure (List Token) :=
  match stack with
  | [] => .error .rustPanic
  | a :: s1 =>
    if t.content = [':'] ∨ t.content = [','] ∨ t.content = [' '] then
      match s1 with
      | [] => .error .rustPanic
      | b :: s2 =>
        if ¬(a.token_type = .Reference ∧ b.token_type = .Reference) then
          .error .rustErr
        else
          match a.reference_set, b.reference_set with
          | some ra, some rb =>
            match apply_reference_operator ra rb t.content with
            | .error e => .error e
            | .ok rs => .ok (Token.reference rs :: s2)
          | _, _ => .error .rustPanic
    else if t.content = ['-', '1'] then
      match as_f32 a s with
      | .error e => .error e
      | .ok v => .ok (Token.new .Number (f32ToString (-v)) :: s1)
    else if t.content = ['%'] then
      match as_f32 a s with
      | .error e => .error e
      | .ok v => .ok (Token.new .Number (f32ToString (v / 100)) :: s1)
    else if t.content = ['+'] ∨ t.content = ['-'] ∨ t.content = ['*'] ∨
        t.content = ['/'] ∨ t.content = ['^'] then
      match s1 with
      | [] => .error .rustPanic
      | b :: s2 =>
        match as_f32 b s with
        | .error e => .error e
        | .ok vb =>
          match as_f32 a s with
          | .error e => .error e
          | .ok va =>
            .ok (Token.new .Number
              (f32ToString (apply_arithmetic_operator vb va t.content)) :: s2)
    else if t.content = ['&'] then
      match s1 with
      | [] => .error .rustPanic
      | b :: s2 =>
        let concatenated := b.content ++ a.content
        let result :=
          if (parseF32 concatenated).isSome then Token.new .Number concatenated
          else if toUpper concatenated = ("TRUE").toList ∨
              toUpper concatenated = ("FALSE").toList then
            Token.new .Boolean (toUpper concatenated)
          else Token.new .String concatenated
        .ok (result :: s2)
    else if t.content = ['='] ∨ t.content = ['<'] ∨ t.content = ['>'] ∨
        t.content = ['<', '='] ∨ t.content = ['>', '='] ∨
        t.content = ['<', '>'] then
      match s1 with
      | [] => .error .rustPanic
      | b :: s2 =>
        match as_f32 b s with
        | .error e => .error e
        | .ok vb =>
          match as_f32 a s with
          | .error e => .error e
          | .ok va =>
            .ok (Token.new .Boolean
              (if apply_comparison_operator vb va t.content
               then ("TRUE").toList else ("FALSE").toList) :: s2)
    else .ok s1

/-- The second loop of `eval_formula`: the postfix program against the
operand stack (top at the head; Rust's `eval_stack.first()` is therefore the
last element).  A failed function call (`Err(())`) is silently skipped by the
source's `if let Ok`; panics propagate. -/
def evalPostfix : Nat → List Token → List Token → Spreadsheet →
    Except Failure (List Token)
  | 0, _, _, _ => .error .fuelOut
  | _ + 1, [], stack, _ => .ok stack
  | fuel + 1, t :: rest, stack, s =>
    match t.token_type with
    | .Operator =>
      match evalOperator t stack s with
      | .error e => .error e
      | .ok stack2 => evalPostfix fuel rest stack2 s
    | .Function =>
      if registeredFuncs.contains t.content then
        match t.function_n_args with
        | none => .error .rustPanic
        | some k =>
          if stack.length < k then .error .rustPanic
          else
            let args := (stack.take k).reverse
            match callFunc fuel t.content args s with
            | .ok result => evalPostfix fuel rest (result.reverse ++ stack.drop k) s
            | .error .rustErr => evalPostfix fuel rest (stack.drop k) s
            | .error e => .error e
      else .error .rustErr
    | .Reference => evalPostfix fuel rest (t :: stack) s
    | .String => evalPostfix fuel rest (t :: stack) s
    | .Boolean => evalPostfix fuel rest (t :: stack) s
    | .Number => evalPostfix fuel rest (t :: stack) s
    | _ => evalPostfix fuel rest stack s
termination_by structural fuel _ _ _ => fuel

end

/-- `cell_to_token` applied through `Spreadsheet::get_cell_value` is the grid
accessor; this is the `evaluate_cell_text` composition used by callers. -/
def emptySheet : Spreadsheet := { data := [], colWidthsLen := 16384, rand := 0 }

/-! ## Concrete fixtures used by the claim theorems -/

/-- A one-cell grid whose `A1` holds the literal text `5`. -/
def sheetA1is5 : Spreadsheet :=
  { data := [[['5']]], colWidthsLen := 16384, rand := 0 }

/-- The left parenthesis token as the lexer produces it. -/
def lpTok : Token := Token.new .LeftParen []

/-- The right parenthesis token as the lexer produces it. -/
def rpTok : Token := Token.new .RightParen []

/-- A number token carrying one digit. -/
def numTok (c : Char) : Token := Token.new .Number [c]

/-- The binary plus operator token. -/
def plusTok : Token := Token.new .Operator ['+']

/-! ## Claim theorems -/

/-- C1: the claim says `eval_formula` always returns a token or an error and
never crashes — in particular on the empty formula, on a formula whose lex
fails, and on a formula whose postfix program leaves the operand stack empty.
The code panics on all three, whatever the grid and however much fuel the
model grants: the empty token list underflows `0..parsed.len() - 1`; a
leading comma makes `parse_formula` return `Err(())`, which
`unwrap_or_default` turns into an empty program whose final
`eval_stack.first().unwrap()` panics; and `1+` pops an empty operand stack. -/
theorem eval_formula_panics_not_errors (n : Nat) (s : Spreadsheet) :
    eval_formula (n + 1) ([]) s = .error .rustPanic ∧
    eval_formula (n + 2) ((",1").toList) s = .error .rustPanic ∧
    eval_formula (n + 3) (("1+").toList) s = .error .rustPanic := by
  refine ⟨?_, ?_, ?_⟩
  · simp [eval_formula, parse_formula, lexLoop]
  · have h1 : parse_formula ((",1").toList) = .error .rustErr := by decide
    simp only [eval_formula, h1]
    have h2 : shuntingYard [] = .ok [] := rfl
    simp only [h2, evalPostfix]
    rfl
  · have h1 : parse_formula (("1+").toList) = .ok [numTok '1', plusTok] := by decide
    have h2 : shuntingYard [numTok '1', plusTok] = .ok [numTok '1', plusTok] := by
      decide
    have h3 : evalOperator plusTok [numTok '1'] s = .error .rustPanic := rfl
    simp only [eval_formula, h1, h2, evalPostfix]
    have ht1 : (numTok '1').token_type = TokenType.Number := rfl
    have ht2 : plusTok.token_type = TokenType.Operator := rfl
    simp only [ht1, ht2, h3]

/-- C2: the claim says the `RightParen` arm pops operators only until a
`LeftParen` is found and discards that `LeftParen`.  The source condition
`x.token_type != LeftParen || x.token_type != Function` is a tautology, so
for every operator stack the loop drains it entirely into the output
(`LeftParen` tokens included); concretely, on the stream of `1+(2)` the
`LeftParen` itself appears in the postfix output and the `+` below it is
popped with it. -/
theorem right_paren_loop_emits_left_paren :
    (∀ (ops out : List Token), popRightParen ops out = ([], out ++ ops)) ∧
    shuntingYard [lpTok, numTok '1', rpTok] = .ok [numTok '1', lpTok] ∧
    shuntingYard [numTok '1', plusTok, lpTok, numTok '2', rpTok] =
      .ok [numTok '1', numTok '2', lpTok, plusTok] := by
  refine ⟨?_, by decide, by decide⟩
  intro ops
  induction ops with
  | nil => intro out; simp [popRightParen]
  | cons x rest ih =>
    intro out
    have hcond : x.token_type ≠ TokenType.LeftParen ∨
        x.token_type ≠ TokenType.Function := by
      by_cases h : x.token_type = TokenType.LeftParen
      · right; rw [h]; intro hh; cases hh
      · left; exact h
    simp only [popRightParen, if_pos hcond, ih]
    simp

/-- C3: the claim says non-formula cell text is classified Number for
digit-and-dot text, Boolean for `TRUE`/`FALSE` (any case), else String.  The
code's fallback type is `Number` (the initial value of its mutable) and its
boolean test compares the uppercased text against `"True"`, so `TRUE` and
`hello` both coerce to `Number` tokens whatever the grid; only the `FALSE`
spellings reach `Boolean`. -/
theorem cell_to_token_boolean_and_string_fallthrough (n : Nat) (s : Spreadsheet) :
    cell_to_token (n + 1) (("TRUE").toList) s =
      .ok (Token.new .Number (("TRUE").toList)) ∧
    cell_to_token (n + 1) (("hello").toList) s =
      .ok (Token.new .Number (("hello").toList)) ∧
    cell_to_token (n + 1) (("12.5").toList) s =
      .ok (Token.new .Number (("12.5").toList)) ∧
    cell_to_token (n + 1) (("FALSE").toList) s =
      .ok (Token.new .Boolean (("FALSE").toList)) ∧
    cell_to_token (n + 1) (("false").toList) s =
      .ok (Token.new .Boolean (("false").toList)) := by
  refine ⟨?_, ?_, ?_, ?_, ?_⟩ <;> rfl

/-- C5: the claim says `alpha_to_index (index_to_alpha n) = n` for every `n`
in `[1, 2^14]`.  At `n = 26` (column `Z`) the digit loop of `index_to_alpha`
emits `26 % 26 = 0`, i.e. the character `@`, producing `"A@"`, which
`alpha_to_index` rejects as non-alphabetic. -/
theorem alpha_index_round_trip_fails_at_26 :
    index_to_alpha 26 = some ['A', '@'] ∧
    alpha_to_index ['A', '@'] = .ok none := by
  decide

/-- C8 counterexample: the claim (scenario S7) says `"a"&TRUE` evaluates to
Boolean `TRUE`.  It does not. -/
theorem concat_true_not_boolean :
    eval_formula 20 (("\"a\"&TRUE").toList) emptySheet ≠
      .ok (Token.new .Boolean (("TRUE").toList)) := by
  decide

/-- C8 amended: `"a"&TRUE` concatenates the payloads to `aTRUE`, which parses
as neither a number nor a boolean word, so the `&`-classification rule
(correctly implemented by the code) yields a String token `aTRUE`. -/
theorem concat_true_evaluates_to_string :
    eval_formula 20 (("\"a\"&TRUE").toList) emptySheet =
      .ok (Token.new .String (("aTRUE").toList)) := by
  decide

/-- C6 counterexample: the claim says numeric coercion of a one-cell
reference token dereferences the cell (here `A1`, holding `5`, which coerces
to the Number token `5` with value `5`) rather than yielding `0.0`.  The
code's `as_f32` has no `Reference` arm: the reference token coerces to `0`
even though the dereferenced cell's token coerces to `5`. -/
theorem as_f32_ignores_grid_counterexample :
    as_f32 (Token.reference [{ row := some 0, col := some 0 }]) sheetA1is5 =
      .ok 0 ∧
    get_cell_value 5 { row := 0, col := 0 } sheetA1is5 =
      .ok (Token.new .Number ['5']) ∧
    as_f32 (Token.new .Number ['5']) sheetA1is5 = .ok 5 ∧
    (0 : ℚ) ≠ 5 := by
  decide

/-- C6 amended: numeric coercion of every `Reference` token yields `0.0`; the
grid accessor passed to `as_f32` is never consulted. -/
theorem as_f32_reference_yields_zero (t : Token) (s : Spreadsheet)
    (h : t.token_type = .Reference) : as_f32 t s = .ok 0 := by
  unfold as_f32
  rw [h]

/-- Witness for the amended C6 theorem at a concrete reference token. -/
theorem as_f32_reference_yields_zero_witness :
    as_f32 (Token.reference [{ row := some 0, col := some 0 }]) emptySheet =
      .ok 0 :=
  as_f32_reference_yields_zero _ _ rfl

/-- C7 counterexample: the claim says an argument list containing a
non-numeric, non-reference argument makes `SUM` fail.  `SUM` of the single
String argument `x` succeeds with `0`. -/
theorem sum_ok_on_non_numeric_argument :
    callFunc 5 (("SUM").toList) [Token.new .String ['x']] emptySheet =
      .ok [Token.new .Number ['0']] := by
  decide

/-! ## C9: operand preservation through the reorder pass -/

/-- Operand kinds: the token kinds the reorderer appends straight to the
output queue. -/
def isOperandTok (t : Token) : Bool :=
  match t.token_type with
  | .Number => true
  | .String => true
  | .Boolean => true
  | .Reference => true
  | _ => false

lemma popRightParen_eq (ops : List Token) :
    ∀ out, popRightParen ops out = ([], out ++ ops) := by
  induction ops with
  | nil => intro out; simp [popRightParen]
  | cons x rest ih =>
    intro out
    have hcond : x.token_type ≠ TokenType.LeftParen ∨ x.token_type ≠ TokenType.Function := by
      by_cases h : x.token_type = TokenType.LeftParen
      · right; rw [h]; intro hh; cases hh
      · left; exact h
    simp only [popRightParen, if_pos hcond, ih]
    simp

lemma popFuncBoundary_eq (ops : List Token) :
    ∀ out, popFuncBoundary ops out = ([], out ++ ops) := by
  induction ops with
  | nil => intro out; simp [popFuncBoundary]
  | cons x rest ih =>
    intro out
    have hcond : x.token_type ≠ TokenType.LeftParen ∨ x.token_type ≠ TokenType.Function ∨
        x.token_type ≠ TokenType.FuncArgSep := by
      by_cases h : x.token_type = TokenType.LeftParen
      · right; left; rw [h]; intro hh; cases hh
      · left; exact h
    simp only [popFuncBoundary, if_pos hcond, ih]
    simp

lemma popOperators_split (cur : Nat) (ops : List Token) :
    ∀ out, ∃ moved kept, ops = moved ++ kept ∧
      popOperators cur ops out = (kept, out ++ moved) := by
  induction ops with
  | nil => intro out; exact ⟨[], [], by simp, by simp [popOperators]⟩
  | cons x rest ih =>
    intro out
    by_cases h : cur ≤ get_operator_precedence x.content
    · obtain ⟨moved, kept, hsplit, heq⟩ := ih (out ++ [x])
      refine ⟨x :: moved, kept, by simp [hsplit], ?_⟩
      simp only [popOperators, if_pos h, heq]
      simp
    · exact ⟨[], x :: rest, by simp, by simp [popOperators, if_neg h]⟩

lemma filter_operand_nil {l : List Token} (h : ∀ t ∈ l, isOperandTok t = false) :
    l.filter isOperandTok = [] := by
  induction l with
  | nil => rfl
  | cons x rest ih =>
    have hx := h x (by simp)
    simp only [List.filter, hx]
    exact ih (fun t ht => h t (by simp [ht]))

lemma shuntAux_operands :
    ∀ (input : List Token), ∀ (out ops fns res : List Token),
      (∀ t ∈ ops, isOperandTok t = false) →
      (∀ t ∈ fns, isOperandTok t = false) →
      shuntAux input out ops fns = .ok res →
      res.filter isOperandTok =
        out.filter isOperandTok ++ input.filter isOperandTok := by
  intro input
  induction input with
  | nil =>
    intro out ops fns res hops hfns h
    simp only [shuntAux] at h
    cases h
    simp [List.filter_append, filter_operand_nil hops]
  | cons t rest ih =>
    intro out ops fns res hops hfns h
    rcases htt : t.token_type with htk | htk | htk | htk | htk | htk | htk | htk | htk | htk
    case LeftParen =>
      simp only [shuntAux, htt] at h
      have := ih out (t :: ops) fns res
        (by intro u hu; rcases List.mem_cons.mp hu with rfl | hu
            · simp [isOperandTok, htt]
            · exact hops u hu)
        hfns h
      rw [this]
      simp [List.filter, isOperandTok, htt]
    case RightParen =>
      simp only [shuntAux, htt, popRightParen_eq] at h
      have := ih (out ++ ops) [] fns res (by simp) hfns h
      rw [this]
      simp [List.filter_append, filter_operand_nil hops, List.filter, isOperandTok, htt]
    case Function =>
      simp only [shuntAux, htt] at h
      have := ih out ops (t :: fns) res hops
        (by intro u hu; rcases List.mem_cons.mp hu with rfl | hu
            · simp [isOperandTok, htt]
            · exact hfns u hu)
        h
      rw [this]
      simp [List.filter, isOperandTok, htt]
    case FuncClose =>
      simp only [shuntAux, htt, popFuncBoundary_eq] at h
      cases fns with
      | nil => cases h
      | cons f fns' =>
        have := ih (out ++ ops ++ [f]) [] fns' res (by simp)
          (fun u hu => hfns u (by simp [hu])) h
        rw [this]
        have hf := hfns f (by simp)
        have ht : isOperandTok t = false := by simp [isOperandTok, htt]
        simp [List.filter_append, filter_operand_nil hops, List.filter, hf, ht]
    case FuncArgSep =>
      simp only [shuntAux, htt, popFuncBoundary_eq] at h
      have := ih (out ++ ops) [] fns res (by simp) hfns h
      rw [this]
      simp [List.filter_append, filter_operand_nil hops, List.filter, isOperandTok, htt]
    case Operator =>
      simp only [shuntAux, htt] at h
      by_cases hz : get_operator_precedence t.content = 0
      · rw [if_pos hz] at h; cases h
      · rw [if_neg hz] at h
        obtain ⟨moved, kept, hsplit, heq⟩ :=
          popOperators_split (get_operator_precedence t.content) ops out
        rw [heq] at h
        have hkept : ∀ u ∈ kept, isOperandTok u = false := by
          intro u hu; exact hops u (by rw [hsplit]; simp [hu])
        have hmoved : ∀ u ∈ moved, isOperandTok u = false := by
          intro u hu; exact hops u (by rw [hsplit]; simp [hu])
        have := ih (out ++ moved) (t :: kept) fns res
          (by intro u hu; rcases List.mem_cons.mp hu with rfl | hu
              · simp [isOperandTok, htt]
              · exact hkept u hu)
          hfns h
        rw [this]
        simp [List.filter_append, filter_operand_nil hmoved, List.filter,
          isOperandTok, htt]
    all_goals
      simp only [shuntAux, htt] at h
      have := ih (out ++ [t]) ops fns res hops hfns h
      rw [this]
      simp [List.filter_append, List.filter, isOperandTok, htt]

/-- C9: the subsequence of operand tokens (Number, String, Boolean,
Reference) in the postfix output of the reorder pass equals the subsequence
of operand tokens in the input stream, in order, whenever the pass produces
an output at all. -/
theorem shunting_yard_preserves_operands (ts res : List Token)
    (h : shuntingYard ts = .ok res) :
    res.filter isOperandTok = ts.filter isOperandTok := by
  have := shuntAux_operands ts [] [] [] res (by simp) (by simp) h
  simpa using this

/-- Witness for C9 at the token stream of `1+2`. -/
theorem shunting_yard_preserves_operands_witness :
    [numTok '1', numTok '2', plusTok].filter isOperandTok =
      [numTok '1', plusTok, numTok '2'].filter isOperandTok :=
  shunting_yard_preserves_operands [numTok '1', plusTok, numTok '2']
    [numTok '1', numTok '2', plusTok] (by decide)

/-! ## C7: SUM never fails -/

/-- `Token::is_number` restricted to non-reference tokens, where it consults
no grid: Boolean and Number are numeric, a String is numeric when its content
parses, everything else is not. -/
def isNumPure (t : Token) : Bool :=
  match t.token_type with
  | .Boolean => true
  | .Number => true
  | .String => (parseF32 t.content).isSome
  | _ => false

/-- The value `as_f32` assigns to a non-reference token (a String contributes
`0` even when its content parses — only `Number` and `Boolean` have value
arms). -/
def valPure (t : Token) : ℚ :=
  match t.token_type with
  | .Number => (parseF32 t.content).getD 0
  | .Boolean => if t.content = ("TRUE").toList then 1 else 0
  | _ => 0

lemma is_number_plain (n : Nat) (t : Token) (s : Spreadsheet)
    (h : t.token_type ≠ TokenType.Reference) :
    is_number (n + 1) t s = .ok (isNumPure t) := by
  rcases htt : t.token_type with htk | htk | htk | htk | htk | htk | htk | htk | htk | htk <;>
    [skip; skip; skip; exact absurd htt h; skip; skip; skip; skip; skip; skip] <;>
    simp only [is_number, isNumPure, htt]

lemma as_f32_plain (t : Token) (s : Spreadsheet)
    (h3 : t.token_type = TokenType.Number → (parseF32 t.content).isSome = true) :
    as_f32 t s = .ok (valPure t) := by
  rcases htt : t.token_type with htk | htk | htk | htk | htk | htk | htk | htk | htk | htk <;>
    simp only [as_f32, valPure, htt]
  case Number =>
    have := h3 htt
    cases hp : parseF32 t.content with
    | none => rw [hp] at this; cases this
    | some v => simp [hp]

lemma gatherNums_plain :
    ∀ (args : List Token) (n : Nat) (s : Spreadsheet),
      (∀ a ∈ args, a.reference_set = none) →
      (∀ a ∈ args, a.token_type ≠ TokenType.Reference) →
      (∀ a ∈ args, a.token_type = TokenType.Number → (parseF32 a.content).isSome = true) →
      args.length < n →
      gatherNums n args s = .ok ((args.filter isNumPure).map valPure) := by
  intro args
  induction args with
  | nil =>
    intro n s _ _ _ hn
    cases n with
    | zero => omega
    | succ m => simp [gatherNums]
  | cons a rest ih =>
    intro n s h1 h2 h3 hn
    cases n with
    | zero => omega
    | succ m =>
      cases m with
      | zero => simp at hn
      | succ m' =>
        have hne : a.token_type ≠ TokenType.Reference := h2 a (by simp)
        have hval : as_f32 a s = .ok (valPure a) :=
          as_f32_plain a s (fun hh => h3 a (by simp) hh)
        have hrest := ih (m' + 1) s
          (fun u hu => h1 u (by simp [hu]))
          (fun u hu => h2 u (by simp [hu]))
          (fun u hu => h3 u (by simp [hu]))
          (by simp at hn; omega)
        have hrs : a.reference_set = none := h1 a (by simp)
        simp only [gatherNums, is_number_plain m' a s hne, hrs, hrest, hval]
        by_cases hnum : isNumPure a = true
        · simp [hnum, List.filter]
        · simp only [Bool.not_eq_true] at hnum
          simp [hnum, List.filter]

/-- C7 amended: `SUM` over any argument list of plain (non-reference,
reference-set-free) tokens never fails: it returns the Number token rendering
the sum of `as_f32` over the arguments that satisfy `is_number`, silently
skipping every non-numeric argument.  (The hypothesis on `Number`-typed
arguments excludes the `as_f32` parse panic, which lexed number tokens — digit
runs — always satisfy.) -/
theorem sum_never_fails_on_plain_arguments (n : Nat) (args : List Token)
    (s : Spreadsheet)
    (h1 : ∀ a ∈ args, a.reference_set = none)
    (h2 : ∀ a ∈ args, a.token_type ≠ TokenType.Reference)
    (h3 : ∀ a ∈ args, a.token_type = TokenType.Number →
      (parseF32 a.content).isSome = true)
    (h4 : args.length + 2 ≤ n) :
    callFunc n (("SUM").toList) args s =
      .ok [Token.new .Number (f32ToString ((args.filter isNumPure).map valPure).sum)] := by
  cases n with
  | zero => omega
  | succ m =>
    have hg := gatherNums_plain args m s h1 h2 h3 (by omega)
    simp [callFunc, hg]

/-- Witness for the amended C7 theorem: `SUM` of a non-numeric String and the
number `2` succeeds with `2`. -/
theorem sum_never_fails_on_plain_arguments_witness :
    callFunc 5 (("SUM").toList)
      [Token.new .String ['y'], Token.new .Number ['2']] emptySheet =
      .ok [Token.new .Number ['2']] := by
  have h := sum_never_fails_on_plain_arguments 5
    [Token.new .String ['y'], Token.new .Number ['2']] emptySheet
    (by decide) (by decide) (by decide) (by decide)
  exact h.trans (by decide)

/-! ## C4: reference parse / render round trip -/

/-- The uppercase ASCII letters. -/
def upperChars : List Char := ("ABCDEFGHIJKLMNOPQRSTUVWXYZ").toList

/-- The ASCII digits. -/
def digitChars : List Char := ("0123456789").toList

/-- The pure value accumulated by the `alpha_to_index` loop over an already
reversed letter list. -/
def revVal : List Char → Nat → Nat
  | [], _ => 0
  | c :: rest, i => (c.toNat - 64) * 26 ^ i + revVal rest (i + 1)

lemma upper_char_facts :
    ∀ c ∈ upperChars, c.isAlpha = true ∧ c.isDigit = false ∧
      65 ≤ c.toNat ∧ c.toNat ≤ 90 := by decide

lemma digit_char_facts :
    ∀ c ∈ digitChars, c.isDigit = true ∧ c.isAlpha = false ∧
      48 ≤ c.toNat ∧ c.toNat ≤ 57 := by decide

lemma takeWhile_append_of {p : Char → Bool} :
    ∀ (L D : List Char), (∀ c ∈ L, p c = true) →
      (∀ c, D.head? = some c → p c = false) →
      (L ++ D).takeWhile p = L ∧ (L ++ D).dropWhile p = D := by
  intro L
  induction L with
  | nil =>
    intro D _ h2
    cases D with
    | nil => simp
    | cons d D' =>
      have hd := h2 d rfl
      simp [List.takeWhile, List.dropWhile, hd]
  | cons c L' ih =>
    intro D h1 h2
    have hc := h1 c (by simp)
    have := ih D (fun u hu => h1 u (by simp [hu])) h2
    simp [List.takeWhile, List.dropWhile, hc, this.1, this.2]

lemma alphaAux_upper (l : List Char) :
    ∀ (i acc : Nat), (∀ c ∈ l, c ∈ upperChars) →
      l.length + i ≤ 3 → acc + revVal l i ≤ 18278 →
      alphaAux l i acc = .ok (some (acc + revVal l i)) := by
  induction l with
  | nil => intro i acc _ _ _; simp [alphaAux, revVal]
  | cons c rest ih =>
    intro i acc hu hlen hacc
    have hc := upper_char_facts c (hu c (by simp))
    have hpow : 26 ^ i ≤ 676 := by
      calc 26 ^ i ≤ 26 ^ 2 := Nat.pow_le_pow_right (by norm_num) (by simp at hlen; omega)
      _ = 676 := by norm_num
    have hrv : revVal (c :: rest) i = (c.toNat - 64) * 26 ^ i + revVal rest (i + 1) := rfl
    rw [hrv] at hacc
    simp only [alphaAux, hc.1]
    rw [if_neg (by simp), if_neg (show ¬(4294967296 ≤ 26 ^ i) by omega),
      if_neg (show ¬(4294967296 ≤ (c.toNat - 64) * 26 ^ i) by omega),
      if_neg (show ¬(4294967296 ≤ acc + (c.toNat - 64) * 26 ^ i) by omega),
      ih (i + 1) (acc + (c.toNat - 64) * 26 ^ i)
        (fun u hu' => hu u (by simp [hu']))
        (by simp at hlen ⊢; omega) (by omega)]
    rw [hrv]
    congr 2
    omega

lemma revVal_bound (l : List Char) (hu : ∀ c ∈ l, c ∈ upperChars)
    (hl : l.length ≤ 3) : revVal l 0 ≤ 18278 := by
  match l, hl with
  | [], _ => simp [revVal]
  | [a], _ =>
    have ha := upper_char_facts a (hu a (by simp))
    simp only [revVal]
    omega
  | [a, b], _ =>
    have ha := upper_char_facts a (hu a (by simp))
    have hb := upper_char_facts b (hu b (by simp))
    simp only [revVal]
    norm_num
    omega
  | [a, b, c], _ =>
    have ha := upper_char_facts a (hu a (by simp))
    have hb := upper_char_facts b (hu b (by simp))
    have hc := upper_char_facts c (hu c (by simp))
    simp only [revVal]
    norm_num
    omega

lemma revVal_pos (l : List Char) (i : Nat) (hne : l ≠ [])
    (hu : ∀ c ∈ l, c ∈ upperChars) : 1 ≤ revVal l i := by
  match l with
  | c :: rest =>
    have hc := upper_char_facts c (hu c (by simp))
    have hp : 1 ≤ 26 ^ i := Nat.one_le_pow _ _ (by norm_num)
    have : 1 * 1 ≤ (c.toNat - 64) * 26 ^ i := Nat.mul_le_mul (by omega) hp
    simp only [revVal]
    omega

lemma alpha_to_index_upper (L : List Char)
    (hu : ∀ c ∈ L, c ∈ upperChars) (hlen : L.length ≤ 3) :
    alpha_to_index L = .ok (some (revVal L.reverse 0)) := by
  have hb : revVal L.reverse 0 ≤ 18278 :=
    revVal_bound L.reverse (fun c hc => hu c (List.mem_reverse.mp hc)) (by simp [hlen])
  have h := alphaAux_upper L.reverse 0 0
    (fun c hc => hu c (List.mem_reverse.mp hc)) (by simp [hlen]) (by omega)
  rw [alpha_to_index, h]
  simp

/-- C4 counterexample: the claim says `parse_reference(t).to_string()` is the
uppercase of `t` for any valid reference text, e.g. `t = "a1"`.  The code
yields `"(AG,1)"`: the lowercase letter is not case-folded by
`parse_reference` (`'a' - '@' = 33`, column index 32) and the rendering is
the parenthesised tuple, not `LETTERS ++ DIGITS`. -/
theorem parse_reference_to_string_counterexample :
    parse_reference (("a1").toList) = .ok (some { row := some 0, col := some 32 }) ∧
    Reference.to_string { row := some 0, col := some 32 } = .ok (("(AG,1)").toList) ∧
    ("(AG,1)").toList ≠ toUpper (("a1").toList) := by
  decide

/-- C4 amended: for a valid uppercase reference text `L ++ D` (at most three
letters — every column up to `MAX_COLS` — and digits of value at least one),
parsing succeeds with the 0-based coordinates, and rendering the parsed
reference produces the parenthesised tuple `(letters,digits)`: the letters
re-encoded through `index_to_alpha` (which differs from `L` at exact
multiples of 26) and the digits re-rendered from the row value — never the
uppercase of the input text itself. -/
theorem parse_reference_to_string_amended (L D : List Char)
    (hL : L ≠ []) (hLu : ∀ c ∈ L, c ∈ upperChars) (hLlen : L.length ≤ 3)
    (hD : D ≠ []) (hDd : ∀ c ∈ D, c ∈ digitChars)
    (hv1 : 1 ≤ digitsVal D) (hv2 : digitsVal D < 18446744073709551616) :
    parse_reference (L ++ D) =
      .ok (some { row := some (digitsVal D - 1),
                  col := some (revVal L.reverse 0 - 1) }) ∧
    Reference.to_string
        { row := some (digitsVal D - 1), col := some (revVal L.reverse 0 - 1) } =
      .ok ('(' :: (index_to_alpha (revVal L.reverse 0)).getD [] ++
        ',' :: natToChars (digitsVal D) ++ [')']) := by
  have hLa : ∀ c ∈ L, Char.isAlpha c = true :=
    fun c hc => (upper_char_facts c (hLu c hc)).1
  have hDhead : ∀ c, D.head? = some c → Char.isAlpha c = false := by
    intro c hc
    cases D with
    | nil => cases hc
    | cons d D' =>
      cases hc
      exact (digit_char_facts c (hDd c (by simp))).2.1
  have hspanA := takeWhile_append_of L D hLa hDhead
  have hDdig : ∀ c ∈ D, Char.isDigit c = true :=
    fun c hc => (digit_char_facts c (hDd c hc)).1
  have hspanD := takeWhile_append_of D [] (by simpa using hDdig)
    (by intro c hc; cases hc)
  rw [List.append_nil] at hspanD
  have hA := alpha_to_index_upper L hLu hLlen
  have hb : revVal L.reverse 0 ≤ 18278 :=
    revVal_bound L.reverse (fun c hc => hLu c (List.mem_reverse.mp hc)) (by simp [hLlen])
  have hpos : 1 ≤ revVal L.reverse 0 :=
    revVal_pos L.reverse 0 (by simpa using hL)
      (fun c hc => hLu c (List.mem_reverse.mp hc))
  constructor
  · have hparse : parseUsize D = some (digitsVal D) := by
      rw [parseUsize, if_pos ⟨hD, List.all_eq_true.mpr hDdig, hv2⟩]
    simp only [parse_reference, hspanA.1, hspanA.2, hspanD.1, hspanD.2]
    rw [if_neg (by
      simp only [List.length_eq_zero, List.length_nil]
      rintro (⟨h1, _⟩ | h2)
      · exact hD h1
      · exact h2 rfl)]
    rw [if_pos (List.length_pos.mpr hL), hA]
    rw [if_pos (List.length_pos.mpr hD), hparse]
    have hnz : ¬(digitsVal D = 0) := by omega
    simp [hnz]
  · simp only [Reference.to_string]
    rw [Nat.mod_eq_of_lt (by omega : revVal L.reverse 0 - 1 < 4294967296)]
    rw [if_neg (by omega)]
    rw [show revVal L.reverse 0 - 1 + 1 = revVal L.reverse 0 by omega]
    rw [show digitsVal D - 1 + 1 = digitsVal D by omega]
    rw [index_to_alpha]
    simp

/-- Witness for the amended C4 theorem on the reference text `BC23`:
column `BC` is 55, row `23`, rendered back as `(BC,23)`. -/
theorem parse_reference_to_string_amended_witness :
    parse_reference (("BC23").toList) =
      .ok (some { row := some 22, col := some 54 }) ∧
    Reference.to_string { row := some 22, col := some 54 } =
      .ok (("(BC,23)").toList) := by
  have h := parse_reference_to_string_amended (("BC").toList) (("23").toList)
    (by decide) (by decide) (by decide) (by decide) (by decide) (by decide)
    (by decide)
  exact ⟨h.1.trans (by decide), h.2.trans (by decide)⟩

/-! ## C10: Boolean tokens on the operand stack are uppercase -/

/-- The invariant: a `Boolean`-kinded token carries exactly `TRUE` or `FALSE`. -/
def BoolOk (t : Token) : Prop :=
  t.token_type = TokenType.Boolean →
    t.content = ("TRUE").toList ∨ t.content = ("FALSE").toList

instance : DecidablePred BoolOk := fun t => by
  unfold BoolOk
  infer_instance

lemma boolOk_new_of_ne {ty : TokenType} {c : List Char} (h : ty ≠ .Boolean) :
    BoolOk (Token.new ty c) := by
  intro hb
  exact absurd hb h

lemma boolOk_append {acc : List Token} {x : Token}
    (h : ∀ t ∈ acc, BoolOk t) (hx : BoolOk x) :
    ∀ t ∈ acc ++ [x], BoolOk t := by
  intro t ht
  rcases List.mem_append.mp ht with h1 | h2
  · exact h t h1
  · rw [List.mem_singleton.mp h2]; exact hx

lemma lexLoop_boolOk :
    ∀ (n : Nat) (formula : List Char) (i : Nat) (fcp : List Nat)
      (acc : List Token) (res : List Token × List Nat),
      (∀ t ∈ acc, BoolOk t) → lexLoop n formula i fcp acc = .ok res →
      ∀ t ∈ res.1, BoolOk t := by
  intro n
  induction n with
  | zero => intro formula i fcp acc res _ h; cases h
  | succ m ih =>
    intro formula i fcp acc res hacc h
    simp only [lexLoop] at h
    repeat' split at h
    all_goals try cases h
    all_goals
      first
      | exact hacc
      | exact ih _ _ _ _ _ hacc h
      | exact ih _ _ _ _ _ (boolOk_append hacc (boolOk_new_of_ne (by decide))) h
      | exact ih _ _ _ _ _ (boolOk_append hacc (fun _ => by assumption)) h
      | exact ih _ _ _ _ _ (boolOk_append hacc (by intro hb; cases hb)) h

lemma boolOk_of_mem_set {ps : List Token} {idx : Nat} {x t : Token}
    (hps : ∀ u ∈ ps, BoolOk u) (hx : BoolOk x) (ht : t ∈ ps.set idx x) :
    BoolOk t := by
  rcases List.mem_or_eq_of_mem_set ht with h1 | h2
  · exact hps t h1
  · rw [h2]; exact hx

lemma pass2Aux_boolOk :
    ∀ (n : Nat) (ps : List Token) (idx : Nat) (toRemove : List Nat)
      (res : List Token × List Nat),
      (∀ t ∈ ps, BoolOk t) → pass2Aux n ps idx toRemove = .ok res →
      ∀ t ∈ res.1, BoolOk t := by
  intro n
  induction n with
  | zero => intro ps idx toRemove res _ h; cases h
  | succ m ih =>
    intro ps idx toRemove res hps h
    simp only [pass2Aux] at h
    repeat' split at h
    all_goals try cases h
    all_goals
      first
      | exact hps
      | exact ih _ _ _ _ hps h
      | (refine ih _ _ _ _ (fun u hu => boolOk_of_mem_set hps ?_ hu) h
         intro hb
         first
         | cases hb
         | simp_all)

lemma snd_mem_of_mem_enumFrom {α : Type} :
    ∀ (l : List α) (n : Nat) (p : Nat × α), p ∈ l.enumFrom n → p.2 ∈ l := by
  intro l
  induction l with
  | nil => intro n p h; cases h
  | cons c rest ih =>
    intro n p h
    rcases List.mem_cons.mp h with h1 | h2
    · rw [h1]; simp
    · exact List.mem_cons_of_mem _ (ih (n + 1) p h2)

lemma mem_of_mem_removePass {ps : List Token} {toRemove : List Nat} {t : Token}
    (h : t ∈ removePass ps toRemove) : t ∈ ps := by
  simp only [removePass, List.mem_filterMap] at h
  obtain ⟨p, hp, hf⟩ := h
  split at hf
  · cases hf
  · cases hf
    exact snd_mem_of_mem_enumFrom ps 0 p hp

lemma getD_mem_of_lt {l : List Token} {idx : Nat} (h : idx < l.length)
    (d : Token) : l.getD idx d ∈ l := by
  rw [List.getD_eq_getElem?_getD, List.getElem?_eq_getElem h]
  exact List.getElem_mem h

lemma ariPassAux_boolOk :
    ∀ (n : Nat) (ps : List Token) (idx : Nat),
      (∀ t ∈ ps, BoolOk t) → ∀ t ∈ ariPassAux n ps idx, BoolOk t := by
  intro n
  induction n with
  | zero => intro ps idx hps; exact hps
  | succ m ih =>
    intro ps idx hps
    simp only [ariPassAux]
    split
    case isTrue hlt =>
      split
      case isTrue hfn =>
        refine ih _ _ (fun u hu => boolOk_of_mem_set hps ?_ hu)
        intro hb
        exact hps _ (getD_mem_of_lt hlt default) hb
      case isFalse => exact ih _ _ hps
    case isFalse => exact hps

lemma parse_formula_boolOk (f : List Char) (ts : List Token)
    (h : parse_formula f = .ok ts) : ∀ t ∈ ts, BoolOk t := by
  simp only [parse_formula] at h
  split at h
  · cases h
  case h_2 parsed fcp heq =>
    split at h
    · cases h
    · split at h
      · cases h
      case h_2 ps toRemove heq2 =>
        cases h
        have h1 : ∀ t ∈ parsed, BoolOk t :=
          lexLoop_boolOk _ f 0 [] [] (parsed, fcp) (by intro t ht; cases ht) heq
        have h2 : ∀ t ∈ ps, BoolOk t :=
          pass2Aux_boolOk _ parsed 0 [] (ps, toRemove) h1 heq2
        have h3 : ∀ t ∈ removePass ps toRemove, BoolOk t :=
          fun t ht => h2 t (mem_of_mem_removePass ht)
        exact ariPassAux_boolOk _ _ _ h3

lemma shuntAux_boolOk :
    ∀ (input out ops fns res : List Token),
      (∀ t ∈ input, BoolOk t) → (∀ t ∈ out, BoolOk t) →
      (∀ t ∈ ops, BoolOk t) → (∀ t ∈ fns, BoolOk t) →
      shuntAux input out ops fns = .ok res → ∀ t ∈ res, BoolOk t := by
  intro input
  induction input with
  | nil =>
    intro out ops fns res _ hout hops _ h
    cases h
    intro t ht
    rcases List.mem_append.mp ht with h1 | h2
    · exact hout t h1
    · exact hops t h2
  | cons c rest ih =>
    intro out ops fns res hin hout hops hfns h
    have hc := hin c (by simp)
    have hrest : ∀ t ∈ rest, BoolOk t := fun t ht => hin t (by simp [ht])
    rcases htt : c.token_type with htk | htk | htk | htk | htk | htk | htk | htk | htk | htk
    all_goals simp only [shuntAux, htt] at h
    case LeftParen =>
      exact ih out (c :: ops) fns res hrest hout
        (by intro u hu; rcases List.mem_cons.mp hu with rfl | hu
            · exact hc
            · exact hops u hu)
        hfns h
    case RightParen =>
      rw [popRightParen_eq] at h
      exact ih (out ++ ops) [] fns res hrest
        (by intro u hu; rcases List.mem_append.mp hu with h1 | h2
            · exact hout u h1
            · exact hops u h2)
        (by intro u hu; cases hu) hfns h
    case Function =>
      exact ih out ops (c :: fns) res hrest hout hops
        (by intro u hu; rcases List.mem_cons.mp hu with rfl | hu
            · exact hc
            · exact hfns u hu)
        h
    case FuncClose =>
      rw [popFuncBoundary_eq] at h
      cases fns with
      | nil => cases h
      | cons fhd ftl =>
        exact ih (out ++ ops ++ [fhd]) [] ftl res hrest
          (by intro u hu
              rcases List.mem_append.mp hu with h1 | h2
              · rcases List.mem_append.mp h1 with h3 | h4
                · exact hout u h3
                · exact hops u h4
              · rw [List.mem_singleton.mp h2]; exact hfns fhd (by simp))
          (by intro u hu; cases hu)
          (fun u hu => hfns u (by simp [hu])) h
    case FuncArgSep =>
      rw [popFuncBoundary_eq] at h
      exact ih (out ++ ops) [] fns res hrest
        (by intro u hu; rcases List.mem_append.mp hu with h1 | h2
            · exact hout u h1
            · exact hops u h2)
        (by intro u hu; cases hu) hfns h
    case Operator =>
      split at h
      · cases h
      · obtain ⟨moved, kept, hsplit, heq⟩ :=
          popOperators_split (get_operator_precedence c.content) ops out
        rw [heq] at h
        exact ih (out ++ moved) (c :: kept) fns res hrest
          (by intro u hu; rcases List.mem_append.mp hu with h1 | h2
              · exact hout u h1
              · exact hops u (by rw [hsplit]; exact List.mem_append.mpr (.inl h2)))
          (by intro u hu; rcases List.mem_cons.mp hu with rfl | hu
              · exact hc
              · exact hops u (by rw [hsplit]; exact List.mem_append.mpr (.inr hu)))
          hfns h
    all_goals
      exact ih (out ++ [c]) ops fns res hrest (boolOk_append hout hc) hops hfns h

lemma callFunc_boolOk :
    ∀ (n : Nat) (name : List Char) (args : List Token) (s : Spreadsheet)
      (res : List Token),
      (∀ a ∈ args, BoolOk a) → callFunc n name args s = .ok res →
      ∀ t ∈ res, BoolOk t := by
  intro n name args s res hargs h
  cases n with
  | zero => cases h
  | succ m =>
    simp only [callFunc] at h
    repeat' split at h
    all_goals try cases h
    all_goals intro t ht
    all_goals rw [List.mem_singleton.mp ht]
    all_goals
      first
      | exact boolOk_new_of_ne (by decide)
      | exact hargs _ (getD_mem_of_lt (by omega) default)
      | exact fun _ => Or.inr rfl

lemma evalOperator_boolOk (t : Token) (stack : List Token) (s : Spreadsheet)
    (stack2 : List Token) (hstack : ∀ u ∈ stack, BoolOk u)
    (h : evalOperator t stack s = .ok stack2) : ∀ u ∈ stack2, BoolOk u := by
  simp only [evalOperator] at h
  repeat' split at h
  all_goals try cases h
  all_goals intro u hu
  all_goals
    solve
    | (rcases List.mem_cons.mp hu with rfl | hu2
       · solve
         | (intro hb; simp [Token.new, Token.reference] at hb)
         | exact fun _ => Or.inl rfl
         | exact fun _ => Or.inr rfl
         | (refine fun _ => ?_; simp only [Token.new]; assumption)
       · solve
         | exact (List.not_mem_nil u hu2).elim
         | (refine hstack u ?_; simp [hu2]))
    | (refine hstack u ?_; simp [hu])

lemma mem_of_mem_take_reverse {l args : List Token} {k : Nat} {u : Token}
    (hargs : args = (l.take k).reverse) (hu : u ∈ args) : u ∈ l := by
  rw [hargs] at hu
  exact List.mem_of_mem_take (List.mem_reverse.mp hu)

lemma evalPostfix_boolOk :
    ∀ (n : Nat) (prog stack : List Token) (s : Spreadsheet) (stack' : List Token),
      (∀ t ∈ prog, BoolOk t) → (∀ t ∈ stack, BoolOk t) →
      evalPostfix n prog stack s = .ok stack' → ∀ t ∈ stack', BoolOk t := by
  intro n
  induction n with
  | zero => intro prog stack s stack' _ _ h; cases h
  | succ m ih =>
    intro prog stack s stack' hprog hstack h
    cases prog with
    | nil => rw [evalPostfix] at h; cases h; exact hstack
    | cons t rest =>
      have ht := hprog t (by simp)
      have hrest : ∀ u ∈ rest, BoolOk u := fun u hu => hprog u (by simp [hu])
      rcases htt : t.token_type with htk | htk | htk | htk | htk | htk | htk | htk | htk | htk
      all_goals simp only [evalPostfix, htt] at h
      case Operator =>
        split at h
        · cases h
        case h_2 stack2 heq =>
          exact ih _ _ _ _ hrest (evalOperator_boolOk t stack s stack2 hstack heq) h
      case Function =>
        split at h
        case isFalse => cases h
        case isTrue =>
          split at h
          · cases h
          case h_2 k hk =>
            split at h
            case isTrue => cases h
            case isFalse =>
              split at h
              case h_1 res hres =>
                refine ih _ _ _ _ hrest ?_ h
                intro u hu
                rcases List.mem_append.mp hu with h1 | h2
                · exact callFunc_boolOk m t.content ((stack.take k).reverse) s res
                    (fun a ha => hstack a (mem_of_mem_take_reverse rfl ha))
                    hres u (List.mem_reverse.mp h1)
                · exact hstack u (List.mem_of_mem_drop h2)
              case h_2 =>
                exact ih _ _ _ _ hrest
                  (fun u hu => hstack u (List.mem_of_mem_drop hu)) h
              case h_3 => cases h
      case Reference =>
        refine ih _ _ _ _ hrest ?_ h
        intro u hu
        rcases List.mem_cons.mp hu with rfl | hu2
        · exact ht
        · exact hstack u hu2
      case String =>
        refine ih _ _ _ _ hrest ?_ h
        intro u hu
        rcases List.mem_cons.mp hu with rfl | hu2
        · exact ht
        · exact hstack u hu2
      case Boolean =>
        refine ih _ _ _ _ hrest ?_ h
        intro u hu
        rcases List.mem_cons.mp hu with rfl | hu2
        · exact ht
        · exact hstack u hu2
      case Number =>
        refine ih _ _ _ _ hrest ?_ h
        intro u hu
        rcases List.mem_cons.mp hu with rfl | hu2
        · exact ht
        · exact hstack u hu2
      all_goals exact ih _ _ _ _ hrest hstack h

/-- C10: every Boolean token the evaluator can push carries exactly `TRUE` or
`FALSE`.  Stated in three parts over the pipeline: (1) every Boolean token in
the lexer's output is uppercased to `TRUE`/`FALSE` (boolean literals are
uppercased at lex time and the sweeps never produce a Boolean); (2) the
reorder pass only moves tokens, preserving the property; (3) the evaluator
preserves it on the operand stack — comparison operators push the uppercased
rendering of the comparison result, concatenation uppercases any result it
classifies Boolean, and `IF` returns stack tokens or its Boolean `FALSE`
default, so every stack reachable from a well-formed program and stack keeps
every Boolean token's content in {TRUE, FALSE}. -/
theorem boolean_tokens_uppercase_invariant (f : List Char) (n : Nat)
    (ts prog stack stack' : List Token) (s : Spreadsheet) :
    (parse_formula f = .ok ts → ∀ t ∈ ts, BoolOk t) ∧
    ((∀ t ∈ ts, BoolOk t) → shuntingYard ts = .ok prog → ∀ t ∈ prog, BoolOk t) ∧
    ((∀ t ∈ prog, BoolOk t) → (∀ t ∈ stack, BoolOk t) →
      evalPostfix n prog stack s = .ok stack' → ∀ t ∈ stack', BoolOk t) := by
  refine ⟨fun h => parse_formula_boolOk f ts h, fun hts h => ?_, fun h1 h2 h3 =>
    evalPostfix_boolOk n prog stack s stack' h1 h2 h3⟩
  exact shuntAux_boolOk ts [] [] [] prog hts (by intro u hu; cases hu)
    (by intro u hu; cases hu) (by intro u hu; cases hu) h

/-- Witness for C10: running the postfix program of `1=1` pushes the Boolean
token `TRUE`, whose content the invariant pins to `TRUE`/`FALSE`. -/
theorem boolean_tokens_uppercase_invariant_witness :
    evalPostfix 5 [numTok '1', numTok '1', Token.new .Operator ['=']] []
      emptySheet = .ok [Token.new .Boolean (("TRUE").toList)] ∧
    ((Token.new .Boolean (("TRUE").toList)).content = ("TRUE").toList ∨
      (Token.new .Boolean (("TRUE").toList)).content = ("FALSE").toList) := by
  refine ⟨by decide, ?_⟩
  have h := (boolean_tokens_uppercase_invariant [] 5 []
    [numTok '1', numTok '1', Token.new .Operator ['=']] []
    [Token.new .Boolean (("TRUE").toList)] emptySheet).2.2
    (by decide) (by decide) (by decide)
  exact h (Token.new .Boolean (("TRUE").toList)) (by simp) rfl
